import Mathlib

/-!
Verification of the grid-reduction core of kingrid.c (Kinect depth-frame
grid statistics).  The per-frame `depth` callback is embedded as a fold of a
per-pixel accumulation step over pixel indices; the statistics aggregation,
median walk, interpolated lookup and the three renderers are embedded as
plain functions.  Machine integers are modelled as `Nat` (all the C `int`
quantities involved are provably nonnegative, and no accumulator can
overflow for the frame sizes involved); C `float`/`double` arithmetic in
`lutf` and the ASCII renderer is modelled exactly over `Rat`, and the C
truncating `(int)` cast is modelled by truncated integer division.
Frame width, height and grid divisions are parameters `W`, `H`, `G`
(`FREENECT_FRAME_W`, `FREENECT_FRAME_H`, `data->divisions` in the source).
-/

/-- Source: `#define SM_HIST_SIZE 64` (kingrid.c line 38). -/
def SM_HIST_SIZE : ℕ := 64

/-- Source: `#define PX_TO_X(pix) (FREENECT_FRAME_W - 1 - (pix) % FREENECT_FRAME_W)`
(kingrid.c line 41): the horizontal coordinate is mirrored. -/
def pxToX (W i : ℕ) : ℕ := W - 1 - i % W

/-- Source: `#define PX_TO_Y(pix) ((pix) / FREENECT_FRAME_W)` (kingrid.c line 42). -/
def pxToY (W i : ℕ) : ℕ := i / W

/-- Source: `#define PX_TO_GRIDX(pix) (PX_TO_X(pix) * data->divisions / FREENECT_FRAME_W)`
(kingrid.c line 45). -/
def pxToGridX (W G i : ℕ) : ℕ := pxToX W i * G / W

/-- Source: `#define PX_TO_GRIDY(pix) (PX_TO_Y(pix) * data->divisions / FREENECT_FRAME_H)`
(kingrid.c line 46). -/
def pxToGridY (W H G i : ℕ) : ℕ := pxToY W i * G / H

/-- Source: the histogram bucket index `buf[i] * SM_HIST_SIZE / 1024`
(kingrid.c line 168). -/
def histBucket (v : ℕ) : ℕ := v * SM_HIST_SIZE / 1024

/-- Pointwise update of a two-index array, modelling `a[y][x] = v`. -/
def upd2 (f : ℕ → ℕ → ℕ) (a b v : ℕ) : ℕ → ℕ → ℕ :=
  fun x y => if x = a ∧ y = b then v else f x y

/-- Pointwise update of a three-index array, modelling `a[y][x][k] = v`. -/
def upd3 (f : ℕ → ℕ → ℕ → ℕ) (a b c v : ℕ) : ℕ → ℕ → ℕ → ℕ :=
  fun x y z => if x = a ∧ y = b ∧ z = c then v else f x y z

/-- The per-frame accumulator arrays of the `depth` callback (kingrid.c
lines 137-145): `small_histogram`, `total`, `min`, `max`, `oor_count`,
`div_pix` (all indexed `[gridy][gridx]`), plus the frame-level `oor_total`. -/
structure GridState where
  div_pix : ℕ → ℕ → ℕ
  oor_count : ℕ → ℕ → ℕ
  small_histogram : ℕ → ℕ → ℕ → ℕ
  total : ℕ → ℕ → ℕ
  min : ℕ → ℕ → ℕ
  max : ℕ → ℕ → ℕ
  oor_total : ℕ

/-- The initialisation of the accumulators (kingrid.c lines 148-154):
`memset(..., 0, ...)` for histogram, total, max, oor_count, div_pix and
`oor_total = 0`; `memset(min, 0xff, ...)` sets every `uint16_t` entry of
`min` to `0xFFFF = 65535`. -/
def initState : GridState :=
  { div_pix := fun _ _ => 0
    oor_count := fun _ _ => 0
    small_histogram := fun _ _ _ => 0
    total := fun _ _ => 0
    min := fun _ _ => 65535
    max := fun _ _ => 0
    oor_total := 0 }

/-- One iteration of the pixel loop of `depth` (kingrid.c lines 157-177):
increment `div_pix` at the pixel's grid cell; if the sample is the sentinel
2047, bump `oor_count` and `oor_total` and skip the rest (`continue`);
otherwise bump the histogram bucket `buf[i] * SM_HIST_SIZE / 1024` and
update min, max and the running total. -/
def pixelStep (W H G : ℕ) (buf : ℕ → ℕ) (s : GridState) (i : ℕ) : GridState :=
  if buf i = 2047 then
    { div_pix := upd2 s.div_pix (pxToGridY W H G i) (pxToGridX W G i)
        (s.div_pix (pxToGridY W H G i) (pxToGridX W G i) + 1)
      oor_count := upd2 s.oor_count (pxToGridY W H G i) (pxToGridX W G i)
        (s.oor_count (pxToGridY W H G i) (pxToGridX W G i) + 1)
      small_histogram := s.small_histogram
      total := s.total
      min := s.min
      max := s.max
      oor_total := s.oor_total + 1 }
  else
    { div_pix := upd2 s.div_pix (pxToGridY W H G i) (pxToGridX W G i)
        (s.div_pix (pxToGridY W H G i) (pxToGridX W G i) + 1)
      oor_count := s.oor_count
      small_histogram := upd3 s.small_histogram (pxToGridY W H G i) (pxToGridX W G i)
        (histBucket (buf i))
        (s.small_histogram (pxToGridY W H G i) (pxToGridX W G i) (histBucket (buf i)) + 1)
      total := upd2 s.total (pxToGridY W H G i) (pxToGridX W G i)
        (s.total (pxToGridY W H G i) (pxToGridX W G i) + buf i)
      min := upd2 s.min (pxToGridY W H G i) (pxToGridX W G i)
        (if buf i < s.min (pxToGridY W H G i) (pxToGridX W G i) then buf i
         else s.min (pxToGridY W H G i) (pxToGridX W G i))
      max := upd2 s.max (pxToGridY W H G i) (pxToGridX W G i)
        (if s.max (pxToGridY W H G i) (pxToGridX W G i) < buf i then buf i
         else s.max (pxToGridY W H G i) (pxToGridX W G i))
      oor_total := s.oor_total }

/-- The pixel loop of `depth` run over the first `n` pixel indices. -/
def reduceN (W H G : ℕ) (buf : ℕ → ℕ) (n : ℕ) : GridState :=
  (List.range n).foldl (pixelStep W H G buf) initState

/-- The full reduction pass of `depth` over all `FREENECT_FRAME_PIX = W * H`
pixels (kingrid.c lines 148-177). -/
def reduce (W H G : ℕ) (buf : ℕ → ℕ) : GridState :=
  reduceN W H G buf (W * H)

/-- The median-search loop of `depth` (kingrid.c lines 186-191): walk
`histcount` upward, adding each bucket into `medcount`, and stop as soon as
`medcount >= half` (where the caller passes `half = (div_pix - oor)/2`);
if no bucket triggers the break, the loop leaves `histcount = SM_HIST_SIZE`.
The structural `fuel` argument counts the remaining iterations,
`SM_HIST_SIZE - histcount`. -/
def medianWalk (small_histogram : ℕ → ℕ) (half : ℕ) :
    ℕ → ℕ → ℕ → ℕ
  | 0, _, histcount => histcount
  | fuel + 1, medcount, histcount =>
    if half ≤ medcount + small_histogram histcount then histcount
    else medianWalk small_histogram half fuel
      (medcount + small_histogram histcount) (histcount + 1)

/-- The median of a cell (kingrid.c lines 186-192): run the walk from
`medcount = 0, histcount = 0`, then map the stopping bucket index back with
`(histcount * 1024 + (SM_HIST_SIZE / 2)) / SM_HIST_SIZE`. -/
def medianOf (small_histogram : ℕ → ℕ) (inRange : ℕ) : ℕ :=
  (medianWalk small_histogram (inRange / 2) SM_HIST_SIZE 0 0 * 1024
    + SM_HIST_SIZE / 2) / SM_HIST_SIZE

/-- The per-cell statistics produced by the aggregation loop of `depth`
(kingrid.c lines 179-200): `min`, `max`, `median` raw values and the
floating-point average, modelled exactly over `Rat`. -/
structure CellStats where
  min : ℕ
  max : ℕ
  median : ℕ
  avg : ℚ

/-- The aggregation loop body of `depth` for one cell (kingrid.c lines
180-199): if `oor_count < div_pix`, compute the average over in-range
pixels and the histogram median and carry min/max through; otherwise set
min, max, avg and median to the sentinel 2047. -/
def aggregate (s : GridState) (gy gx : ℕ) : CellStats :=
  if s.oor_count gy gx < s.div_pix gy gx then
    { min := s.min gy gx
      max := s.max gy gx
      median := medianOf (s.small_histogram gy gx) (s.div_pix gy gx - s.oor_count gy gx)
      avg := (s.total gy gx : ℚ) / ((s.div_pix gy gx - s.oor_count gy gx : ℕ) : ℚ) }
  else
    { min := 2047, max := 2047, median := 2047, avg := 2047 }

/-- The per-cell out-of-range percentage printed by the STATS renderer:
`oor_count[i][j] * 100 / div_pix[i][j]` (kingrid.c line 243). -/
def oorPercent (s : GridState) (gy gx : ℕ) : ℕ :=
  s.oor_count gy gx * 100 / s.div_pix gy gx

/-- The frame-level out-of-range flag (kingrid.c line 302):
`data->out_of_range = oor_total > FREENECT_FRAME_PIX * 35 / 100`. -/
def out_of_range (W H : ℕ) (s : GridState) : Bool :=
  decide (W * H * 35 / 100 < s.oor_total)

/-- The C `(int)` cast applied to an exact rational: truncation toward
zero (floor for nonnegative values, ceiling for negative ones). -/
def cint (q : ℚ) : ℤ := if 0 ≤ q then ⌊q⌋ else ⌈q⌉

/-- Source: `lutf` (kingrid.c lines 67-73): `int idx_int = (int)idx;
float k = idx_int - idx; return depth_lut[idx_int] * k +
depth_lut[idx_int + 1] * (1.0f - k);`.  The lookup table is modelled as a
function on the (C `int`) index; the float arithmetic is modelled exactly
over `Rat`. -/
def lutf (depth_lut : ℤ → ℚ) (idx : ℚ) : ℚ :=
  (depth_lut (cint idx)) * ((cint idx : ℚ) - idx)
    + (depth_lut (cint idx + 1)) * (1 - ((cint idx : ℚ) - idx))

/-- Source: `grid_bar` (kingrid.c lines 115-131): clamp `percent` to
[0, 100], then print `charcount = percent * boxwidth / 100` filled
characters.  This function returns that filled-character count; `percent`
and `boxwidth` are C `int`s, so the division is truncating. -/
def grid_bar_charcount (boxwidth percent : ℤ) : ℤ :=
  Int.tdiv ((if 100 < percent then 100 else if percent < 0 then 0 else percent) * boxwidth) 100

/-- Source: the bucket-slice accumulation of the HISTOGRAM renderer
(kingrid.c lines 262-264): `for(l = 0; l < SM_HIST_SIZE / data->histrows; l++)
val += small_histogram[i][j][histcount + l];`. -/
def histBarVal (small_histogram : ℕ → ℕ) (histrows histcount : ℕ) : ℕ :=
  (List.range (SM_HIST_SIZE / histrows)).foldl
    (fun val l => val + small_histogram (histcount + l)) 0

/-- Source: the HISTOGRAM renderer's bar for one cell and one bar row
(kingrid.c line 265): `grid_bar(data, '*', val * 40 * data->histrows /
div_pix[i][j])`; returns the filled-character count of that bar. -/
def histBarCharcount (boxwidth : ℤ) (small_histogram : ℕ → ℕ)
    (div_pix histrows histcount : ℕ) : ℤ :=
  grid_bar_charcount boxwidth
    ((histBarVal small_histogram histrows histcount * 40 * histrows / div_pix : ℕ) : ℤ)

/-- Modelled from the spec's words (section 4.4, HISTOGRAM), for comparison
with `histBarCharcount`: the spec says each bar's filled length is
proportional to the slice's share of the cell's IN-RANGE pixel count
(`div_pix - oor_count`), scaled by 40 and the number of histogram rows and
clamped to the box width.  The code divides by the total `div_pix` instead. -/
def histBarCharcountSpec (boxwidth : ℤ) (small_histogram : ℕ → ℕ)
    (div_pix oor_count histrows histcount : ℕ) : ℤ :=
  grid_bar_charcount boxwidth
    ((histBarVal small_histogram histrows histcount * 40 * histrows
      / (div_pix - oor_count) : ℕ) : ℤ)

/-- Source: the ASCII renderer's symbol ramp, the string literal
`"8%+-._ "` (kingrid.c line 287): indices 0-5 are the distance ramp from
closest to farthest, index 6 is the out-of-range symbol. -/
def asciiSymbols : List Char := ['8', '%', '+', '-', '.', '_', ' ']

/-- Source: the ASCII renderer's per-cell character (kingrid.c lines
274-287): `int c = (int)((depth_lut[min] - zmin) * 4.0f / (zmax - zmin));`
clamped to [0, 5], overridden to 6 when `min == 2047`, then indexed into
the ramp. -/
def asciiCellChar (depth_lut : ℤ → ℚ) (zmin zmax : ℚ) (minval : ℕ) : Char :=
  asciiSymbols.getD
    (if minval = 2047 then (6 : ℤ)
     else if 5 < cint ((depth_lut (minval : ℤ) - zmin) * 4 / (zmax - zmin)) then 5
     else if cint ((depth_lut (minval : ℤ) - zmin) * 4 / (zmax - zmin)) < 0 then 0
     else cint ((depth_lut (minval : ℤ) - zmin) * 4 / (zmax - zmin))).toNat ' '

lemma reduceN_succ (W H G : ℕ) (buf : ℕ → ℕ) (n : ℕ) :
    reduceN W H G buf (n + 1) = pixelStep W H G buf (reduceN W H G buf n) n := by
  unfold reduceN
  rw [List.range_succ, List.foldl_append, List.foldl_cons, List.foldl_nil]

lemma pixelStep_div_pix (W H G : ℕ) (buf : ℕ → ℕ) (s : GridState) (i gy gx : ℕ) :
    (pixelStep W H G buf s i).div_pix gy gx =
      if gy = pxToGridY W H G i ∧ gx = pxToGridX W G i
      then s.div_pix gy gx + 1 else s.div_pix gy gx := by
  by_cases hc : gy = pxToGridY W H G i ∧ gx = pxToGridX W G i
  · obtain ⟨h1, h2⟩ := hc
    subst h1
    subst h2
    by_cases hb : buf i = 2047 <;> simp [pixelStep, upd2, hb]
  · by_cases hb : buf i = 2047 <;> simp [pixelStep, upd2, hb, hc]

lemma pixelStep_oor_count (W H G : ℕ) (buf : ℕ → ℕ) (s : GridState) (i gy gx : ℕ) :
    (pixelStep W H G buf s i).oor_count gy gx =
      if (gy = pxToGridY W H G i ∧ gx = pxToGridX W G i) ∧ buf i = 2047
      then s.oor_count gy gx + 1 else s.oor_count gy gx := by
  by_cases hb : buf i = 2047
  · by_cases hc : gy = pxToGridY W H G i ∧ gx = pxToGridX W G i
    · obtain ⟨h1, h2⟩ := hc
      subst h1
      subst h2
      simp [pixelStep, upd2, hb]
    · simp [pixelStep, upd2, hb, hc]
  · simp [pixelStep, hb]

lemma pixelStep_oor_total (W H G : ℕ) (buf : ℕ → ℕ) (s : GridState) (i : ℕ) :
    (pixelStep W H G buf s i).oor_total =
      if buf i = 2047 then s.oor_total + 1 else s.oor_total := by
  by_cases hb : buf i = 2047 <;> simp [pixelStep, hb]

lemma pixelStep_hist (W H G : ℕ) (buf : ℕ → ℕ) (s : GridState) (i gy gx k : ℕ) :
    (pixelStep W H G buf s i).small_histogram gy gx k =
      if (gy = pxToGridY W H G i ∧ gx = pxToGridX W G i)
          ∧ k = histBucket (buf i) ∧ buf i ≠ 2047
      then s.small_histogram gy gx k + 1 else s.small_histogram gy gx k := by
  by_cases hb : buf i = 2047
  · simp [pixelStep, hb]
  · by_cases hc : gy = pxToGridY W H G i ∧ gx = pxToGridX W G i
    · obtain ⟨h1, h2⟩ := hc
      subst h1
      subst h2
      by_cases hk : k = histBucket (buf i)
      · subst hk
        simp [pixelStep, upd3, hb]
      · simp [pixelStep, upd3, hb, hk]
    · have hc3 : ¬(gy = pxToGridY W H G i ∧ gx = pxToGridX W G i
          ∧ k = histBucket (buf i)) := by tauto
      simp [pixelStep, upd3, hb, hc, hc3]

lemma reduceN_div_pix (W H G : ℕ) (buf : ℕ → ℕ) (n gy gx : ℕ) :
    (reduceN W H G buf n).div_pix gy gx =
      ((Finset.range n).filter
        fun i => gy = pxToGridY W H G i ∧ gx = pxToGridX W G i).card := by
  induction n with
  | zero => simp [reduceN, initState]
  | succ n ih =>
    rw [reduceN_succ, pixelStep_div_pix, ih, Finset.range_succ, Finset.filter_insert]
    by_cases hc : gy = pxToGridY W H G n ∧ gx = pxToGridX W G n
    · rw [if_pos hc, if_pos hc, Finset.card_insert_of_not_mem (by simp)]
    · rw [if_neg hc, if_neg hc]

lemma reduceN_oor_count (W H G : ℕ) (buf : ℕ → ℕ) (n gy gx : ℕ) :
    (reduceN W H G buf n).oor_count gy gx =
      ((Finset.range n).filter
        fun i => (gy = pxToGridY W H G i ∧ gx = pxToGridX W G i) ∧ buf i = 2047).card := by
  induction n with
  | zero => simp [reduceN, initState]
  | succ n ih =>
    rw [reduceN_succ, pixelStep_oor_count, ih, Finset.range_succ, Finset.filter_insert]
    by_cases hc : (gy = pxToGridY W H G n ∧ gx = pxToGridX W G n) ∧ buf n = 2047
    · rw [if_pos hc, if_pos hc, Finset.card_insert_of_not_mem (by simp)]
    · rw [if_neg hc, if_neg hc]

lemma reduceN_oor_total (W H G : ℕ) (buf : ℕ → ℕ) (n : ℕ) :
    (reduceN W H G buf n).oor_total =
      ((Finset.range n).filter fun i => buf i = 2047).card := by
  induction n with
  | zero => simp [reduceN, initState]
  | succ n ih =>
    rw [reduceN_succ, pixelStep_oor_total, ih, Finset.range_succ, Finset.filter_insert]
    by_cases hc : buf n = 2047
    · rw [if_pos hc, if_pos hc, Finset.card_insert_of_not_mem (by simp)]
    · rw [if_neg hc, if_neg hc]

lemma histBucket_lt (v : ℕ) (hv : v < 1024) : histBucket v < SM_HIST_SIZE := by
  unfold histBucket SM_HIST_SIZE
  omega

lemma gridX_lt (W G i : ℕ) (hW : 0 < W) (hG : 0 < G) : pxToGridX W G i < G := by
  unfold pxToGridX pxToX
  rw [Nat.div_lt_iff_lt_mul hW]
  calc (W - 1 - i % W) * G < W * G := by
        apply Nat.mul_lt_mul_of_lt_of_le _ (le_refl G) hG
        omega
    _ = G * W := Nat.mul_comm W G

lemma gridY_lt (W H G i : ℕ) (hH : 0 < H) (hG : 0 < G) (hi : i < W * H) :
    pxToGridY W H G i < G := by
  unfold pxToGridY pxToY
  have hW : 0 < W := by
    rcases Nat.eq_zero_or_pos W with h | h
    · subst h
      simp at hi
    · exact h
  have hy : i / W < H := Nat.div_lt_iff_lt_mul hW |>.mpr (by rwa [Nat.mul_comm W H] at hi)
  rw [Nat.div_lt_iff_lt_mul hH]
  calc i / W * G < H * G := by
        apply Nat.mul_lt_mul_of_lt_of_le hy (le_refl G) hG
    _ = G * H := Nat.mul_comm H G

lemma sum_ite_add_one (f : ℕ → ℕ) (b n : ℕ) (hb : b < n) :
    (∑ k ∈ Finset.range n, if k = b then f k + 1 else f k)
      = (∑ k ∈ Finset.range n, f k) + 1 := by
  have hpt : ∀ k, (if k = b then f k + 1 else f k) = f k + (if k = b then 1 else 0) := by
    intro k
    split <;> simp
  simp only [hpt]
  rw [Finset.sum_add_distrib, Finset.sum_ite_eq' (Finset.range n) b (fun _ => 1),
    if_pos (Finset.mem_range.mpr hb)]

lemma reduceN_hist_sum (W H G : ℕ) (buf : ℕ → ℕ) (n : ℕ)
    (hbuf : ∀ i, i < n → buf i = 2047 ∨ buf i < 1024) (gy gx : ℕ) :
    (∑ k ∈ Finset.range SM_HIST_SIZE, (reduceN W H G buf n).small_histogram gy gx k)
        + (reduceN W H G buf n).oor_count gy gx
      = (reduceN W H G buf n).div_pix gy gx := by
  induction n generalizing gy gx with
  | zero => simp [reduceN, initState]
  | succ n ih =>
    have ih' := fun gy gx => ih (fun i hi => hbuf i (Nat.lt_succ_of_lt hi)) gy gx
    rw [reduceN_succ, pixelStep_oor_count, pixelStep_div_pix]
    by_cases hb : buf n = 2047
    · have hsum : (∑ k ∈ Finset.range SM_HIST_SIZE,
            (pixelStep W H G buf (reduceN W H G buf n) n).small_histogram gy gx k)
          = ∑ k ∈ Finset.range SM_HIST_SIZE,
            (reduceN W H G buf n).small_histogram gy gx k := by
        refine Finset.sum_congr rfl fun k _ => ?_
        rw [pixelStep_hist]
        simp [hb]
      rw [hsum]
      by_cases hc : gy = pxToGridY W H G n ∧ gx = pxToGridX W G n
      · obtain ⟨h1, h2⟩ := hc
        subst h1
        subst h2
        rw [if_pos ⟨⟨rfl, rfl⟩, hb⟩, if_pos ⟨rfl, rfl⟩]
        have := ih' (pxToGridY W H G n) (pxToGridX W G n)
        omega
      · rw [if_neg (fun hcontra => hc hcontra.1), if_neg hc]
        exact ih' gy gx
    · have hlt : buf n < 1024 := by
        rcases hbuf n (Nat.lt_succ_self n) with h | h
        · exact absurd h hb
        · exact h
      have hbk : histBucket (buf n) < SM_HIST_SIZE := histBucket_lt _ hlt
      by_cases hc : gy = pxToGridY W H G n ∧ gx = pxToGridX W G n
      · obtain ⟨h1, h2⟩ := hc
        subst h1
        subst h2
        have hsum : (∑ k ∈ Finset.range SM_HIST_SIZE,
              (pixelStep W H G buf (reduceN W H G buf n) n).small_histogram
                (pxToGridY W H G n) (pxToGridX W G n) k)
            = (∑ k ∈ Finset.range SM_HIST_SIZE,
                (reduceN W H G buf n).small_histogram
                  (pxToGridY W H G n) (pxToGridX W G n) k) + 1 := by
          have hpt : ∀ k,
              (pixelStep W H G buf (reduceN W H G buf n) n).small_histogram
                (pxToGridY W H G n) (pxToGridX W G n) k
              = if k = histBucket (buf n)
                then (reduceN W H G buf n).small_histogram
                  (pxToGridY W H G n) (pxToGridX W G n) k + 1
                else (reduceN W H G buf n).small_histogram
                  (pxToGridY W H G n) (pxToGridX W G n) k := by
            intro k
            rw [pixelStep_hist]
            by_cases hk : k = histBucket (buf n) <;> simp [hb, hk]
          simp only [hpt]
          exact sum_ite_add_one _ _ _ hbk
        rw [hsum]
        rw [if_neg (fun hcontra => hb hcontra.2), if_pos ⟨rfl, rfl⟩]
        have := ih' (pxToGridY W H G n) (pxToGridX W G n)
        omega
      · have hsum : (∑ k ∈ Finset.range SM_HIST_SIZE,
              (pixelStep W H G buf (reduceN W H G buf n) n).small_histogram gy gx k)
            = ∑ k ∈ Finset.range SM_HIST_SIZE,
              (reduceN W H G buf n).small_histogram gy gx k := by
          refine Finset.sum_congr rfl fun k _ => ?_
          rw [pixelStep_hist]
          exact if_neg (by tauto)
        rw [hsum]
        rw [if_neg (fun hcontra => hc hcontra.1), if_neg hc]
        exact ih' gy gx

lemma exists_mul_div_eq (g G b : ℕ) (hG : 0 < G) (hGb : G ≤ b) (hg : g < G) :
    ∃ m, m < b ∧ m * G / b = g := by
  refine ⟨(g * b + G - 1) / G, ?_, ?_⟩
  · have h1 : G * ((g * b + G - 1) / G) + (g * b + G - 1) % G = g * b + G - 1 :=
      Nat.div_add_mod _ _
    have h2 : (g + 1) * b ≤ G * b := Nat.mul_le_mul_right b hg
    have h3 : (g + 1) * b = g * b + b := by ring
    have h4 : G * ((g * b + G - 1) / G) < G * b := by omega
    exact Nat.lt_of_mul_lt_mul_left h4
  · have h1 : G * ((g * b + G - 1) / G) + (g * b + G - 1) % G = g * b + G - 1 :=
      Nat.div_add_mod _ _
    have hr : (g * b + G - 1) % G < G := Nat.mod_lt _ hG
    have hlow : g * b ≤ G * ((g * b + G - 1) / G) := by omega
    have h3 : (g + 1) * b = g * b + b := by ring
    have hhigh : G * ((g * b + G - 1) / G) < (g + 1) * b := by omega
    rw [Nat.mul_comm]
    exact Nat.div_eq_of_lt_le hlow hhigh

lemma cell_nonempty (W H G gy gx : ℕ) (hG : 0 < G) (hGW : G ≤ W) (hGH : G ≤ H)
    (hgy : gy < G) (hgx : gx < G) :
    ∃ i, i < W * H ∧ gy = pxToGridY W H G i ∧ gx = pxToGridX W G i := by
  have hW : 0 < W := lt_of_lt_of_le hG hGW
  obtain ⟨y, hyH, hyeq⟩ := exists_mul_div_eq gy G H hG hGH hgy
  obtain ⟨m, hmW, hmeq⟩ := exists_mul_div_eq gx G W hG hGW hgx
  have hx : W - 1 - m < W := by omega
  refine ⟨y * W + (W - 1 - m), ?_, ?_, ?_⟩
  · have h2 : (y + 1) * W ≤ H * W := Nat.mul_le_mul_right W hyH
    have h3 : (y + 1) * W = y * W + W := by ring
    have h4 : W * H = H * W := Nat.mul_comm W H
    omega
  · unfold pxToGridY pxToY
    have hdiv : (y * W + (W - 1 - m)) / W = y := by
      rw [Nat.add_comm, Nat.add_mul_div_right _ _ hW, Nat.div_eq_of_lt hx, Nat.zero_add]
    rw [hdiv, hyeq]
  · unfold pxToGridX pxToX
    have hmod : (y * W + (W - 1 - m)) % W = W - 1 - m := by
      rw [Nat.add_comm, Nat.add_mul_mod_self_right, Nat.mod_eq_of_lt hx]
    rw [hmod]
    have hmm : W - 1 - (W - 1 - m) = m := by omega
    rw [hmm, hmeq]

lemma medianWalk_stop (small_histogram : ℕ → ℕ) (half fuel medcount histcount : ℕ)
    (h : half ≤ medcount + small_histogram histcount) (hf : 0 < fuel) :
    medianWalk small_histogram half fuel medcount histcount = histcount := by
  cases fuel with
  | zero => omega
  | succ f => simp [medianWalk, h]

lemma foldl_range_add (f : ℕ → ℕ) (n : ℕ) :
    ∀ a, (List.range n).foldl (fun v l => v + f l) a = a + ∑ l ∈ Finset.range n, f l := by
  induction n with
  | zero => intro a; simp
  | succ n ih =>
    intro a
    rw [List.range_succ, List.foldl_append, List.foldl_cons, List.foldl_nil, ih,
      Finset.sum_range_succ]
    omega

lemma histBarVal_eq_sum (small_histogram : ℕ → ℕ) (histrows histcount : ℕ) :
    histBarVal small_histogram histrows histcount
      = ∑ l ∈ Finset.range (SM_HIST_SIZE / histrows), small_histogram (histcount + l) := by
  unfold histBarVal
  rw [foldl_range_add, Nat.zero_add]

/-- Claim C1: for every frame of `W * H` samples and every grid size
`G ≥ 1` (with positive frame dimensions), the per-cell pixel counts
`div_pix` produced by one reduction pass sum over all `G × G` grid cells to
exactly `W * H`: every pixel is assigned to exactly one in-bounds grid
cell. -/
theorem C1_pixel_counts_sum (W H G : ℕ) (hW : 0 < W) (hH : 0 < H) (hG : 0 < G)
    (buf : ℕ → ℕ) :
    (∑ gy ∈ Finset.range G, ∑ gx ∈ Finset.range G,
      (reduce W H G buf).div_pix gy gx) = W * H := by
  have key := Finset.card_eq_sum_card_fiberwise
    (f := fun i => (pxToGridY W H G i, pxToGridX W G i))
    (s := Finset.range (W * H)) (t := Finset.range G ×ˢ Finset.range G)
    (fun i hi => by
      simp only [Finset.mem_product, Finset.mem_range] at *
      exact ⟨gridY_lt W H G i hH hG hi, gridX_lt W G i hW hG⟩)
  rw [Finset.card_range, Finset.sum_product] at key
  refine Eq.trans ?_ key.symm
  refine Finset.sum_congr rfl fun gy _ => Finset.sum_congr rfl fun gx _ => ?_
  rw [reduce, reduceN_div_pix]
  congr 1
  apply Finset.filter_congr
  intro i _
  constructor
  · rintro ⟨h1, h2⟩
    rw [h1, h2]
  · intro h
    exact ⟨(Prod.mk.injEq _ _ _ _ |>.mp h).1.symm, (Prod.mk.injEq _ _ _ _ |>.mp h).2.symm⟩

/-- Witness for C1 at a concrete frame: width 4, height 3, grid 2 × 2. -/
theorem C1_witness :
    (∑ gy ∈ Finset.range 2, ∑ gx ∈ Finset.range 2,
      (reduce 4 3 2 (fun _ => 0)).div_pix gy gx) = 4 * 3 :=
  C1_pixel_counts_sum 4 3 2 (by decide) (by decide) (by decide) (fun _ => 0)

/-- Claim C2 counterexample: the claim as stated fails on the code for a
well-formed frame of 11-bit samples.  A 1-pixel frame with the single
non-sentinel sample 1500 puts that pixel in histogram bucket
`1500 * 64 / 1024 = 93`, outside the `SM_HIST_SIZE = 64` buckets (in the C
code this is an out-of-bounds array write), so the bucket counts over the
64 buckets sum to 0 while `pixel_count - out_of_range_count = 1`. -/
theorem C2_counterexample :
    ¬ ((reduce 1 1 1 (fun _ => 1500)).oor_count 0 0
          ≤ (reduce 1 1 1 (fun _ => 1500)).div_pix 0 0 ∧
       (∑ k ∈ Finset.range SM_HIST_SIZE,
          (reduce 1 1 1 (fun _ => 1500)).small_histogram 0 0 k)
        = (reduce 1 1 1 (fun _ => 1500)).div_pix 0 0
          - (reduce 1 1 1 (fun _ => 1500)).oor_count 0 0) := by
  decide

/-- Claim C2 (amended): for every frame and cell,
`out_of_range_count ≤ pixel_count`; and under the additional precondition
that every non-sentinel sample is below 1024 (the histogram's raw-value
domain), the cell's histogram bucket counts over the `SM_HIST_SIZE = 64`
buckets sum to exactly `pixel_count - out_of_range_count`. -/
theorem C2_amended_invariant (W H G : ℕ) (buf : ℕ → ℕ) (gy gx : ℕ) :
    (reduce W H G buf).oor_count gy gx ≤ (reduce W H G buf).div_pix gy gx ∧
    ((∀ i, i < W * H → buf i = 2047 ∨ buf i < 1024) →
      (∑ k ∈ Finset.range SM_HIST_SIZE,
        (reduce W H G buf).small_histogram gy gx k)
        = (reduce W H G buf).div_pix gy gx - (reduce W H G buf).oor_count gy gx) := by
  constructor
  · rw [reduce, reduceN_div_pix, reduceN_oor_count]
    apply Finset.card_le_card
    intro i hi
    simp only [Finset.mem_filter] at *
    exact ⟨hi.1, hi.2.1⟩
  · intro hbuf
    have h := reduceN_hist_sum W H G buf (W * H) hbuf gy gx
    rw [reduce]
    have hle : (reduceN W H G buf (W * H)).oor_count gy gx
        ≤ (reduceN W H G buf (W * H)).div_pix gy gx := by omega
    omega

/-- Witness for C2 at a concrete frame: a 1-pixel frame with sample 500
(non-sentinel, below 1024). -/
theorem C2_witness :
    (reduce 1 1 1 (fun _ => 500)).oor_count 0 0
        ≤ (reduce 1 1 1 (fun _ => 500)).div_pix 0 0 ∧
    (∑ k ∈ Finset.range SM_HIST_SIZE,
        (reduce 1 1 1 (fun _ => 500)).small_histogram 0 0 k)
      = (reduce 1 1 1 (fun _ => 500)).div_pix 0 0
        - (reduce 1 1 1 (fun _ => 500)).oor_count 0 0 :=
  ⟨(C2_amended_invariant 1 1 1 (fun _ => 500) 0 0).1,
   (C2_amended_invariant 1 1 1 (fun _ => 500) 0 0).2
     (fun i _ => Or.inr (by decide))⟩

/-- Claim C3: the per-pixel histogram accumulation indexes the 64-entry
per-cell histogram with `histBucket v = v * 64 / 1024`; for every raw value
`v ≤ 2046` (i.e. every non-sentinel 11-bit sample) the index is within the
array bounds `[0, 63]` if and only if `v < 1024`; equivalently, for
`1024 ≤ v ≤ 2046` the index is at least 64, so the in-bounds guarantee
holds exactly under the precondition that every non-sentinel sample is
below 1024. -/
theorem C3_hist_bucket_in_bounds_iff :
    ∀ v : ℕ, v ≤ 2046 → (histBucket v < SM_HIST_SIZE ↔ v < 1024) := by
  intro v hv
  unfold histBucket SM_HIST_SIZE
  omega

/-- Witness for C3 at the concrete samples 500 (in bounds) and 1500 (out of
bounds). -/
theorem C3_witness :
    (histBucket 500 < SM_HIST_SIZE ↔ 500 < 1024)
      ∧ (histBucket 1500 < SM_HIST_SIZE ↔ 1500 < 1024) :=
  ⟨C3_hist_bucket_in_bounds_iff 500 (by decide),
   C3_hist_bucket_in_bounds_iff 1500 (by decide)⟩

/-- Claim C4 (code bug evidence): a 1-pixel frame with the single in-range
sample 100 yields `min = max = 100` but `median = 0`, so the invariant
`min ≤ median` fails on the code.  The median walk stops at bucket 0
because `medcount ≥ (pixel_count - oor_count) / 2 = 0` holds immediately,
and `(0 * 1024 + 32) / 64 = 0`; the source itself flags this with
`FIXME: Something is wrong with median calculation`. -/
theorem C4_median_min_violation :
    (aggregate (reduce 1 1 1 (fun _ => 100)) 0 0).min = 100 ∧
    (aggregate (reduce 1 1 1 (fun _ => 100)) 0 0).max = 100 ∧
    (aggregate (reduce 1 1 1 (fun _ => 100)) 0 0).median = 0 ∧
    ¬((aggregate (reduce 1 1 1 (fun _ => 100)) 0 0).min
        ≤ (aggregate (reduce 1 1 1 (fun _ => 100)) 0 0).median) := by
  refine ⟨by decide, by decide, by decide, by decide⟩

/-- Claim C5 counterexample: a 4-pixel frame of uniform sample 5 puts all
four in-range pixels in histogram bucket 0, yet the derived median is 0,
not the raw-value midpoint `1024 / (2 * 64) = 8` of bucket 0 that the claim
asserts: integer division truncates the `+ SM_HIST_SIZE / 2` rounding term
away, `(0 * 1024 + 32) / 64 = 0`. -/
theorem C5_counterexample :
    (reduce 4 1 1 (fun _ => 5)).small_histogram 0 0 0 = 4 ∧
    (reduce 4 1 1 (fun _ => 5)).div_pix 0 0 - (reduce 4 1 1 (fun _ => 5)).oor_count 0 0 = 4 ∧
    (aggregate (reduce 4 1 1 (fun _ => 5)) 0 0).median = 0 ∧
    (aggregate (reduce 4 1 1 (fun _ => 5)) 0 0).median ≠ 1024 / (2 * SM_HIST_SIZE) := by
  refine ⟨by decide, by decide, by decide, by decide⟩

/-- Claim C5 (amended): for every cell histogram whose in-range mass lies
entirely in bucket 0 (`small_histogram 0 = inRange`), the derived median is
0, the lower edge of bucket 0 — not the bucket midpoint 8, because the
`(bucket * 1024 + SM_HIST_SIZE / 2) / SM_HIST_SIZE` mapping truncates the
rounding term to zero for bucket 0. -/
theorem C5_amended_median_bucket0 (small_histogram : ℕ → ℕ) (inRange : ℕ)
    (hmass : small_histogram 0 = inRange) :
    medianOf small_histogram inRange = 0 := by
  unfold medianOf
  rw [medianWalk_stop small_histogram (inRange / 2) SM_HIST_SIZE 0 0
    (by rw [Nat.zero_add, hmass]; exact Nat.div_le_self inRange 2)
    (by unfold SM_HIST_SIZE; omega)]
  rfl

/-- Witness for C5 (amended) at a concrete histogram with 4 samples in
bucket 0. -/
theorem C5_witness :
    medianOf (fun k => if k = 0 then 4 else 0) 4 = 0 :=
  C5_amended_median_bucket0 (fun k => if k = 0 then 4 else 0) 4 rfl

/-- Claim C7: every pixel at coordinates `(x, y)` with `x < W`, `y < H`
(pixel index `i = y * W + x`, row-major) is assigned by the reducer to grid
cell `gx = (W - 1 - x) * G / W`, `gy = y * G / H`: the horizontal
coordinate is mirrored before the grid mapping, and the reduction step
increments `div_pix` at exactly that cell. -/
theorem C7_coordinate_mapping (W H G x y : ℕ) (hx : x < W) (_hy : y < H) :
    pxToGridX W G (y * W + x) = (W - 1 - x) * G / W ∧
    pxToGridY W H G (y * W + x) = y * G / H ∧
    ∀ (buf : ℕ → ℕ) (s : GridState),
      (pixelStep W H G buf s (y * W + x)).div_pix (y * G / H) ((W - 1 - x) * G / W)
        = s.div_pix (y * G / H) ((W - 1 - x) * G / W) + 1 := by
  have hW : 0 < W := Nat.pos_of_ne_zero (by omega)
  have hmod : (y * W + x) % W = x := by
    rw [Nat.add_comm, Nat.add_mul_mod_self_right, Nat.mod_eq_of_lt hx]
  have hdiv : (y * W + x) / W = y := by
    rw [Nat.add_comm, Nat.add_mul_div_right _ _ hW, Nat.div_eq_of_lt hx, Nat.zero_add]
  have h1 : pxToGridX W G (y * W + x) = (W - 1 - x) * G / W := by
    unfold pxToGridX pxToX
    rw [hmod]
  have h2 : pxToGridY W H G (y * W + x) = y * G / H := by
    unfold pxToGridY pxToY
    rw [hdiv]
  refine ⟨h1, h2, fun buf s => ?_⟩
  rw [pixelStep_div_pix, if_pos ⟨h2.symm, h1.symm⟩]

/-- Witness for C7 at the concrete 640 × 480 frame with 6 grid divisions,
pixel `(x, y) = (3, 2)`. -/
theorem C7_witness :
    pxToGridX 640 6 (2 * 640 + 3) = (640 - 1 - 3) * 6 / 640 ∧
    (pixelStep 640 480 6 (fun _ => 0) initState (2 * 640 + 3)).div_pix
        (2 * 6 / 480) ((640 - 1 - 3) * 6 / 640)
      = initState.div_pix (2 * 6 / 480) ((640 - 1 - 3) * 6 / 640) + 1 :=
  ⟨(C7_coordinate_mapping 640 480 6 3 2 (by decide) (by decide)).1,
   (C7_coordinate_mapping 640 480 6 3 2 (by decide) (by decide)).2.2
     (fun _ => 0) initState⟩

/-- Claim C8: (a) every cell whose pixels are all out of range
(`oor_count = div_pix`) aggregates to `min = max = avg = median = 2047`;
(b) for a frame every sample of which is the sentinel 2047 (with
`1 ≤ G ≤ W` and `G ≤ H` so that every grid cell receives at least one
pixel), every cell is wholly out of range, reports an out-of-range
percentage of 100, and the frame-level out-of-range flag is set (threshold:
strictly more than 35 percent of the frame's pixels). -/
theorem C8_out_of_range_cells (W H G : ℕ) (hW : 0 < W) (hH : 0 < H) (hG : 0 < G)
    (hGW : G ≤ W) (hGH : G ≤ H) (buf : ℕ → ℕ) :
    (∀ gy gx, (reduce W H G buf).oor_count gy gx = (reduce W H G buf).div_pix gy gx →
      (aggregate (reduce W H G buf) gy gx).min = 2047 ∧
      (aggregate (reduce W H G buf) gy gx).max = 2047 ∧
      (aggregate (reduce W H G buf) gy gx).avg = 2047 ∧
      (aggregate (reduce W H G buf) gy gx).median = 2047) ∧
    ((∀ i, i < W * H → buf i = 2047) →
      (∀ gy, gy < G → ∀ gx, gx < G →
        (reduce W H G buf).oor_count gy gx = (reduce W H G buf).div_pix gy gx ∧
        0 < (reduce W H G buf).div_pix gy gx ∧
        oorPercent (reduce W H G buf) gy gx = 100) ∧
      out_of_range W H (reduce W H G buf) = true) := by
  constructor
  · intro gy gx h
    unfold aggregate
    rw [if_neg (by omega)]
    exact ⟨rfl, rfl, rfl, rfl⟩
  · intro hbuf
    have hcell : ∀ gy, gy < G → ∀ gx, gx < G →
        (reduce W H G buf).oor_count gy gx = (reduce W H G buf).div_pix gy gx ∧
        0 < (reduce W H G buf).div_pix gy gx := by
      intro gy hgy gx hgx
      constructor
      · rw [reduce, reduceN_oor_count, reduceN_div_pix]
        congr 1
        apply Finset.filter_congr
        intro i hi
        simp only [Finset.mem_range] at hi
        simp [hbuf i hi]
      · rw [reduce, reduceN_div_pix]
        apply Finset.card_pos.mpr
        obtain ⟨i, hiWH, hiy, hix⟩ := cell_nonempty W H G gy gx hG hGW hGH hgy hgx
        exact ⟨i, Finset.mem_filter.mpr ⟨Finset.mem_range.mpr hiWH, hiy, hix⟩⟩
    refine ⟨fun gy hgy gx hgx => ?_, ?_⟩
    · obtain ⟨hoor, hpos⟩ := hcell gy hgy gx hgx
      refine ⟨hoor, hpos, ?_⟩
      unfold oorPercent
      rw [hoor]
      exact Nat.mul_div_cancel_left 100 hpos
    · unfold out_of_range
      have htot : (reduce W H G buf).oor_total = W * H := by
        rw [reduce, reduceN_oor_total]
        rw [Finset.filter_true_of_mem (fun i hi => hbuf i (Finset.mem_range.mp hi))]
        exact Finset.card_range _
      rw [htot]
      simp only [decide_eq_true_eq]
      have hWH : 0 < W * H := Nat.mul_pos hW hH
      have h35 : W * H * 35 < W * H * 100 :=
        Nat.mul_lt_mul_of_le_of_lt (le_refl (W * H)) (by omega) hWH
      rw [Nat.div_lt_iff_lt_mul (by omega : 0 < 100)]
      exact h35

/-- Witness for C8 at the concrete uniformly-sentinel 2 × 2 frame with a
1 × 1 grid. -/
theorem C8_witness :
    (aggregate (reduce 2 2 1 (fun _ => 2047)) 0 0).min = 2047 ∧
    oorPercent (reduce 2 2 1 (fun _ => 2047)) 0 0 = 100 ∧
    out_of_range 2 2 (reduce 2 2 1 (fun _ => 2047)) = true := by
  have h := C8_out_of_range_cells 2 2 1 (by decide) (by decide) (by decide)
    (by decide) (by decide) (fun _ => 2047)
  have hall : ∀ i, i < 2 * 2 → (fun _ => 2047) i = 2047 := fun i _ => rfl
  refine ⟨?_, ((h.2 hall).1 0 (by decide) 0 (by decide)).2.2, (h.2 hall).2⟩
  exact (h.1 0 0 ((h.2 hall).1 0 (by decide) 0 (by decide)).1).1

/-- Claim C9 counterexample: the bar length is not proportional to the
slice's share of the cell's IN-RANGE pixel count.  A 4-pixel frame with two
sentinel pixels and two in-range pixels of value 5 (one cell, one bar row
covering all buckets, box width 10) gives a bar of 2 filled characters
under the code (denominator `div_pix = 4`), while the spec's formula
(denominator `div_pix - oor_count = 2`) gives 4. -/
theorem C9_counterexample :
    histBarCharcount 10
        ((reduce 4 1 1 (fun i => if i < 2 then 2047 else 5)).small_histogram 0 0)
        ((reduce 4 1 1 (fun i => if i < 2 then 2047 else 5)).div_pix 0 0) 1 0 = 2 ∧
    histBarCharcountSpec 10
        ((reduce 4 1 1 (fun i => if i < 2 then 2047 else 5)).small_histogram 0 0)
        ((reduce 4 1 1 (fun i => if i < 2 then 2047 else 5)).div_pix 0 0)
        ((reduce 4 1 1 (fun i => if i < 2 then 2047 else 5)).oor_count 0 0) 1 0 = 4 := by
  refine ⟨by decide, by decide⟩

/-- Claim C9 (amended): in HISTOGRAM mode each bar row aggregates the
contiguous slice of `SM_HIST_SIZE / histrows` histogram buckets starting at
the bar-row index, and its filled-character length is the slice sum scaled
by the visual factor 40 and `histrows`, divided by the cell's TOTAL pixel
count `div_pix` (not the in-range count), expressed as a percentage clamped
to [0, 100] and mapped to `percent * boxwidth / 100` characters — hence
never exceeding the box width. -/
theorem C9_amended_bar_length (boxwidth : ℤ) (hbw : 0 ≤ boxwidth)
    (small_histogram : ℕ → ℕ) (div_pix histrows histcount : ℕ) :
    histBarCharcount boxwidth small_histogram div_pix histrows histcount =
      Int.tdiv (((min 100 ((∑ l ∈ Finset.range (SM_HIST_SIZE / histrows),
          small_histogram (histcount + l)) * 40 * histrows / div_pix) : ℕ) : ℤ)
        * boxwidth) 100 ∧
    0 ≤ histBarCharcount boxwidth small_histogram div_pix histrows histcount ∧
    histBarCharcount boxwidth small_histogram div_pix histrows histcount ≤ boxwidth := by
  obtain ⟨bn, rfl⟩ : ∃ bn : ℕ, boxwidth = (bn : ℤ) :=
    ⟨boxwidth.toNat, (Int.toNat_of_nonneg hbw).symm⟩
  unfold histBarCharcount grid_bar_charcount
  rw [histBarVal_eq_sum]
  have hclamp : ∀ p : ℕ,
      (if (100 : ℤ) < (p : ℤ) then (100 : ℤ) else if (p : ℤ) < 0 then 0 else (p : ℤ))
        = ((min 100 p : ℕ) : ℤ) := by
    intro p
    rcases le_or_lt p 100 with h | h
    · rw [if_neg (by exact_mod_cast Nat.not_lt.mpr h),
        if_neg (by exact_mod_cast Nat.not_lt.mpr (Nat.zero_le p)),
        min_eq_right h]
    · rw [if_pos (by exact_mod_cast h), min_eq_left (le_of_lt h)]
      norm_num
  rw [hclamp]
  refine ⟨rfl, ?_, ?_⟩
  · have : ((min 100 ((∑ l ∈ Finset.range (SM_HIST_SIZE / histrows),
        small_histogram (histcount + l)) * 40 * histrows / div_pix) : ℕ) : ℤ) * (bn : ℤ)
        = ((min 100 ((∑ l ∈ Finset.range (SM_HIST_SIZE / histrows),
          small_histogram (histcount + l)) * 40 * histrows / div_pix) * bn : ℕ) : ℤ) := by
      push_cast
      ring
    rw [this, show (100 : ℤ) = ((100 : ℕ) : ℤ) from rfl, ← Int.ofNat_tdiv]
    exact_mod_cast Nat.zero_le _
  · have hcast : ((min 100 ((∑ l ∈ Finset.range (SM_HIST_SIZE / histrows),
        small_histogram (histcount + l)) * 40 * histrows / div_pix) : ℕ) : ℤ) * (bn : ℤ)
        = ((min 100 ((∑ l ∈ Finset.range (SM_HIST_SIZE / histrows),
          small_histogram (histcount + l)) * 40 * histrows / div_pix) * bn : ℕ) : ℤ) := by
      push_cast
      ring
    rw [hcast, show (100 : ℤ) = ((100 : ℕ) : ℤ) from rfl, ← Int.ofNat_tdiv]
    have hq : min 100 ((∑ l ∈ Finset.range (SM_HIST_SIZE / histrows),
        small_histogram (histcount + l)) * 40 * histrows / div_pix) * bn / 100 ≤ bn := by
      have h1 : min 100 ((∑ l ∈ Finset.range (SM_HIST_SIZE / histrows),
          small_histogram (histcount + l)) * 40 * histrows / div_pix) * bn
          ≤ 100 * bn :=
        Nat.mul_le_mul_right bn (Nat.min_le_left _ _)
      calc min 100 ((∑ l ∈ Finset.range (SM_HIST_SIZE / histrows),
            small_histogram (histcount + l)) * 40 * histrows / div_pix) * bn / 100
          ≤ 100 * bn / 100 := Nat.div_le_div_right h1
        _ = bn := Nat.mul_div_cancel_left bn (by omega)
    exact_mod_cast hq

/-- Witness for C9 (amended) at a concrete histogram: box width 10, uniform
buckets of 1, 64 total pixels, 8 bar rows. -/
theorem C9_witness :
    histBarCharcount 10 (fun _ => 1) 64 8 0 =
      Int.tdiv (((min 100 ((∑ l ∈ Finset.range (SM_HIST_SIZE / 8),
          (fun _ => 1) (0 + l)) * 40 * 8 / 64) : ℕ) : ℤ) * 10) 100 ∧
    0 ≤ histBarCharcount 10 (fun _ => 1) 64 8 0 ∧
    histBarCharcount 10 (fun _ => 1) 64 8 0 ≤ 10 :=
  C9_amended_bar_length 10 (by decide) (fun _ => 1) 64 8 0

/-- Concrete lookup table for exercising `lutf`: entry 1 is 1, every other
entry is 0 (so adjacent entries 0 and 1 differ). -/
def c6table : ℤ → ℚ := fun i => if i = 1 then 1 else 0

/-- Claim C6 (code bug evidence): `lutf` does not return the linear
interpolation `table[i] * (1 - (f - i)) + table[i+1] * (f - i)`.  The code
computes `k = idx_int - idx`, the NEGATED fractional part, and so returns
`table[i] * (i - f) + table[i+1] * (1 - (i - f))`.  With `table[0] = 0`,
`table[1] = 1` and `f = 1/2` (integer part `i = 0`, so `0 ≤ i` and
`i + 1 ≤ 2047`), the code yields `3/2` while the interpolation the claim
(and spec) states yields `1/2`. -/
theorem C6_lutf_divergence :
    lutf c6table (1 / 2) = 3 / 2 ∧
    c6table 0 * (1 - (1 / 2 - 0)) + c6table 1 * (1 / 2 - 0) = 1 / 2 ∧
    lutf c6table (1 / 2)
      ≠ c6table 0 * (1 - (1 / 2 - 0)) + c6table 1 * (1 / 2 - 0) := by
  have h : cint (1 / 2 : ℚ) = 0 := by norm_num [cint]
  have h1 : lutf c6table (1 / 2) = 3 / 2 := by
    rw [lutf, h]
    norm_num [c6table]
  have h2 : c6table 0 * (1 - (1 / 2 - 0)) + c6table 1 * (1 / 2 - 0) = (1 / 2 : ℚ) := by
    norm_num [c6table]
  refine ⟨h1, h2, ?_⟩
  rw [h1, h2]
  norm_num

/-- Claim C10: the ASCII renderer's per-cell character.  (a) A cell whose
minimum raw value is the sentinel 2047 always renders the dedicated
out-of-range symbol (ramp index 6, the space character), regardless of the
clipping range.  (b) Otherwise the character is chosen from the fixed
7-symbol ramp by the linear map `(distance - zmin) * 4 / (zmax - zmin)`
truncated to an integer and clamped to ramp indices [0, 5].  (c) A cell
whose minimum distance equals `zmin` renders the nearest-distance symbol
`8` (in particular for the spec's scenario `zmin = 1/2`, `zmax = 5`). -/
theorem C10_ascii_cell_char (depth_lut : ℤ → ℚ) (zmin zmax : ℚ) (minval : ℕ) :
    (minval = 2047 → asciiCellChar depth_lut zmin zmax minval = ' ') ∧
    (minval ≠ 2047 → asciiCellChar depth_lut zmin zmax minval
      = asciiSymbols.getD
          (min 5 (max 0 (cint ((depth_lut (minval : ℤ) - zmin) * 4 / (zmax - zmin))))).toNat
          ' ') ∧
    (minval ≠ 2047 → depth_lut (minval : ℤ) = zmin →
      asciiCellChar depth_lut zmin zmax minval = '8') := by
  refine ⟨?_, ?_, ?_⟩
  · intro h
    simp [asciiCellChar, h, asciiSymbols]
  · intro h
    unfold asciiCellChar
    rw [if_neg h]
    congr 1
    congr 1
    have : ∀ c : ℤ, (if 5 < c then (5 : ℤ) else if c < 0 then 0 else c)
        = min 5 (max 0 c) := by
      intro c
      split_ifs <;> omega
    exact this _
  · intro h hz
    unfold asciiCellChar
    rw [if_neg h, hz]
    have hnum : (zmin - zmin) * 4 / (zmax - zmin) = 0 := by
      rw [sub_self, zero_mul, zero_div]
    rw [hnum]
    have hc0 : cint 0 = 0 := by norm_num [cint]
    rw [hc0]
    norm_num [asciiSymbols]

/-- Witness for C10 at the spec's scenario: `zmin = 1/2`, `zmax = 5`, a
lookup table sending everything to distance 1/2; the sentinel cell renders
a space and a cell whose minimum converts to distance `zmin` renders the
closest symbol. -/
theorem C10_witness :
    asciiCellChar (fun _ => 1 / 2) (1 / 2) 5 2047 = ' ' ∧
    asciiCellChar (fun _ => 1 / 2) (1 / 2) 5 0 = '8' :=
  ⟨(C10_ascii_cell_char (fun _ => 1 / 2) (1 / 2) 5 2047).1 rfl,
   (C10_ascii_cell_char (fun _ => 1 / 2) (1 / 2) 5 0).2.2 (by decide) rfl⟩
